import Mathlib

/-!
# Verification of the task_log state-and-configuration engine

Shallow embedding of `src/src-tauri/src/lib.rs` (the current version of the
backend; `src/app/src-tauri/src/lib.rs` is an earlier revision of the same
file that lacks the hotkey/archive subsystems).

Modelling conventions:
* The task/note data model (`Note`, `Task`, `TaskState`, `AppConfig`) is
  translated field for field from the Rust structs.
* `serde_json` is an external library; it is modelled at the level of the
  JSON syntax tree. A file's contents (`FileData`) are either `.json j`
  (the pretty-printed text of the JSON value `j`, as produced by
  `serde_json::to_string_pretty`) or `.raw s` (arbitrary other bytes).
  `serde_json::from_str` is modelled as recovering the JSON value from
  `.json` contents and failing on `.raw` contents; the derived
  `Deserialize` impls (required fields, `#[serde(default)]` fields,
  unknown fields ignored, duplicate known fields rejected) are translated
  into the `decode*` functions below.
* The filesystem is a flat association list from file name (all files live
  in the single `~/.tasks` directory) to `FileData`. File operations that
  the program performs (`fs::write`, `fs::rename`, `fs::copy`, append)
  are modelled as total functions on this map; operations whose I/O can
  fail in ways the program propagates take an `ioOk : Bool` oracle.
* `chrono::Local::now()` formatted timestamps enter as `String` parameters.
-/

namespace TaskLog

/-- `struct Note { text: String, #[serde(default)] completed: bool }`. -/
structure Note where
  text : String
  completed : Bool
deriving DecidableEq, Repr

/-- `struct Task { text: String, #[serde(default)] notes: Vec<Note> }`. -/
structure Task where
  text : String
  notes : List Note
deriving DecidableEq, Repr

/-- `struct TaskState { current: Vec<Task>, shelf: Vec<Task> }`. -/
structure TaskState where
  current : List Task
  shelf : List Task
deriving DecidableEq, Repr

/-- `TaskState::default()`: both lists empty. -/
def TaskState.default : TaskState := { current := [], shelf := [] }

/-- `struct AppConfig { #[serde(default = "default_hotkey")] hotkey: String }`. -/
structure AppConfig where
  hotkey : String
deriving DecidableEq, Repr

/-- JSON syntax trees, as far as this program's data needs them
(`serde_json` values; numbers never occur in the serialized state). -/
inductive Json where
  | null
  | bool (b : Bool)
  | str (s : String)
  | arr (elems : List Json)
  | obj (fields : List (String × Json))

/-- Contents of a file: either the pretty-printed text of a JSON value or
arbitrary other bytes. -/
inductive FileData where
  | json (j : Json)
  | raw (s : String)

/-- `serde_json::to_string_pretty` on a `Note` (derived `Serialize`,
fields in declaration order). -/
def encodeNote (n : Note) : Json :=
  .obj [("text", .str n.text), ("completed", .bool n.completed)]

/-- `serde_json::to_string_pretty` on a `Task`. -/
def encodeTask (t : Task) : Json :=
  .obj [("text", .str t.text), ("notes", .arr (t.notes.map encodeNote))]

/-- `serde_json::to_string_pretty` on a `TaskState`. -/
def encodeTaskState (s : TaskState) : Json :=
  .obj [("current", .arr (s.current.map encodeTask)),
        ("shelf", .arr (s.shelf.map encodeTask))]

/-- `serde_json::to_string_pretty` on an `AppConfig`. -/
def encodeAppConfig (c : AppConfig) : Json :=
  .obj [("hotkey", .str c.hotkey)]

/-- Derived `Deserialize for Note`, field loop: visits the object's fields
in order, filling slots; a duplicate known field is an error, unknown
fields are ignored. At the end `text` is required, `completed` defaults
to `false` (`#[serde(default)]`). -/
def noteFields : List (String × Json) → Option String → Option Bool → Option Note
  | [], textSlot, compSlot =>
    match textSlot with
    | some t => some { text := t, completed := compSlot.getD false }
    | none => none
  | (k, v) :: rest, textSlot, compSlot =>
    if k = "text" then
      match textSlot, v with
      | none, .str s => noteFields rest (some s) compSlot
      | _, _ => none
    else if k = "completed" then
      match compSlot, v with
      | none, .bool b => noteFields rest textSlot (some b)
      | _, _ => none
    else
      noteFields rest textSlot compSlot

/-- Derived `Deserialize for Note`: the value must be an object. -/
def decodeNote : Json → Option Note
  | .obj fields => noteFields fields none none
  | _ => none

/-- Deserializing a `Vec<Note>`: every element must decode. -/
def decodeNotes : List Json → Option (List Note)
  | [] => some []
  | j :: rest =>
    match decodeNote j, decodeNotes rest with
    | some n, some ns => some (n :: ns)
    | _, _ => none

/-- Deserializing a `Vec<Note>` value: must be an array whose elements
all decode. -/
def asNotes : Json → Option (List Note)
  | .arr elems => decodeNotes elems
  | _ => none

/-- Derived `Deserialize for Task`, field loop: `text` required,
`notes` defaults to the empty vector (`#[serde(default)]`). -/
def taskFields : List (String × Json) → Option String → Option (List Note) → Option Task
  | [], textSlot, notesSlot =>
    match textSlot with
    | some t => some { text := t, notes := notesSlot.getD [] }
    | none => none
  | (k, v) :: rest, textSlot, notesSlot =>
    if k = "text" then
      match textSlot, v with
      | none, .str s => taskFields rest (some s) notesSlot
      | _, _ => none
    else if k = "notes" then
      match notesSlot, asNotes v with
      | none, some ns => taskFields rest textSlot (some ns)
      | _, _ => none
    else
      taskFields rest textSlot notesSlot

/-- Derived `Deserialize for Task`: the value must be an object. -/
def decodeTask : Json → Option Task
  | .obj fields => taskFields fields none none
  | _ => none

/-- Deserializing a `Vec<Task>`: every element must decode. -/
def decodeTasks : List Json → Option (List Task)
  | [] => some []
  | j :: rest =>
    match decodeTask j, decodeTasks rest with
    | some t, some ts => some (t :: ts)
    | _, _ => none

/-- Deserializing a `Vec<Task>` value: must be an array whose elements
all decode. -/
def asTasks : Json → Option (List Task)
  | .arr elems => decodeTasks elems
  | _ => none

/-- Derived `Deserialize for TaskState`, field loop: both `current` and
`shelf` are required (no `#[serde(default)]` on them). -/
def taskStateFields : List (String × Json) → Option (List Task) → Option (List Task) →
    Option TaskState
  | [], curSlot, shelfSlot =>
    match curSlot, shelfSlot with
    | some cs, some ss => some { current := cs, shelf := ss }
    | _, _ => none
  | (k, v) :: rest, curSlot, shelfSlot =>
    if k = "current" then
      match curSlot with
      | some _ => none
      | none => (asTasks v).bind fun ts => taskStateFields rest (some ts) shelfSlot
    else if k = "shelf" then
      match shelfSlot with
      | some _ => none
      | none => (asTasks v).bind fun ts => taskStateFields rest curSlot (some ts)
    else
      taskStateFields rest curSlot shelfSlot

/-- Derived `Deserialize for TaskState`: the value must be an object. -/
def decodeTaskState : Json → Option TaskState
  | .obj fields => taskStateFields fields none none
  | _ => none

/-- `serde_json::from_str::<Json>` on modelled file contents: succeeds
exactly on well-formed JSON text. -/
def serdeFromStr : FileData → Option Json
  | .json j => some j
  | .raw _ => none

/-- `serde_json::from_str::<TaskState>` on modelled file contents:
JSON parsing followed by structural decoding; `none` covers both
"not JSON" and "wrong shape". -/
def decodeStateFile (d : FileData) : Option TaskState :=
  match serdeFromStr d with
  | some j => decodeTaskState j
  | none => none

/-! ## Filesystem model

All files the program touches live in the single directory `~/.tasks`
(`get_tasks_dir`), so the filesystem is a map from file name to contents,
as an association list. -/

/-- The modelled filesystem: file name ↦ contents. -/
abbrev FS := List (String × FileData)

/-- Contents of the named file, if it exists (first binding wins). -/
def fsLookup : FS → String → Option FileData
  | [], _ => none
  | (k, v) :: rest, name => if k = name then some v else fsLookup rest name

/-- Remove the named file. -/
def fsErase : FS → String → FS
  | [], _ => []
  | (k, v) :: rest, name =>
    if k = name then fsErase rest name else (k, v) :: fsErase rest name

/-- Create or overwrite the named file (`fs::write` / `fs::copy` target). -/
def fsInsert (fs : FS) (name : String) (v : FileData) : FS :=
  (name, v) :: fsErase fs name

/-- `fs::rename(src, dst)`: moves the file, overwriting any existing
destination; no-op when the source is absent (the program ignores the
returned error with `let _ =`). -/
def fsRename (fs : FS) (src dst : String) : FS :=
  match fsLookup fs src with
  | none => fs
  | some v => fsInsert (fsErase fs src) dst v

/-- `get_state_file()`: `~/.tasks/state.json`. -/
def stateFile : String := "state.json"

/-- `path.with_extension("json.corrupted")` applied to `state.json`:
`~/.tasks/state.json.corrupted`. -/
def corruptedFile : String := "state.json.corrupted"

/-- `get_done_file()`: `~/.tasks/done.md`. -/
def doneFile : String := "done.md"

/-- `get_config_file()`: `~/.tasks/config.json`. -/
def configFile : String := "config.json"

/-! ## Persistence operations -/

/-- `load_tasks()` (lib.rs:176-202). Reads `state.json`; absent file →
default state; unparseable contents → warn, rename the file aside to
`state.json.corrupted`, and return the default state. Returns the state
together with the filesystem after the side effects. (The `Err` branch of
`get_state_file` and a read failure of an existing file cannot occur in
the model, where the home directory exists and every present file is
readable.) -/
def load_tasks (fs : FS) : TaskState × FS :=
  match fsLookup fs stateFile with
  | none => (TaskState.default, fs)
  | some d =>
    match decodeStateFile d with
    | some s => (s, fs)
    | none => (TaskState.default, fsRename fs stateFile corruptedFile)

/-- `save_tasks(&state)` (lib.rs:204-209). `ioOk` models the success of
`ensure_tasks_dir` and `fs::write`; serialization itself
(`serde_json::to_string_pretty`) cannot fail on this data. -/
def save_tasks (state : TaskState) (fs : FS) (ioOk : Bool) : Except String FS :=
  if ioOk then
    .ok (fsInsert fs stateFile (.json (encodeTaskState state)))
  else
    .error "io error"

/-- `save_state(new_state, state)` (lib.rs:238-243): replaces the
in-memory aggregate, then writes it to disk; returns (command result,
in-memory tasks afterwards, filesystem afterwards). -/
def save_state (new_state : TaskState) (_tasks : TaskState) (fs : FS) (ioOk : Bool) :
    Except String Unit × TaskState × FS :=
  let tasks := new_state
  match save_tasks tasks fs ioOk with
  | .ok fs2 => (.ok (), tasks, fs2)
  | .error e => (.error e, tasks, fs)

/-- `get_tasks(state)` (lib.rs:233-236): clone of the in-memory state. -/
def get_tasks (tasks : TaskState) : TaskState := tasks

/-- The per-note lines of a completion-log record: two-space indent,
`✓` for completed notes, `○` otherwise. -/
def noteLines : List Note → String
  | [] => ""
  | n :: rest =>
    "  " ++ (if n.completed then "✓" else "○") ++ " " ++ n.text ++ "\n" ++ noteLines rest

/-- Appending text to the named file (`OpenOptions::new().create(true)
.append(true)`): creates the file when absent. A file whose contents are
modelled as a JSON tree has no textual representation in this model; the
program only ever appends to the completion log, which it never writes as
JSON, so that branch is unexercised (modelled as overwriting). -/
def fsAppend (fs : FS) (name : String) (s : String) : FS :=
  match fsLookup fs name with
  | some (.raw old) => fsInsert fs name (.raw (old ++ s))
  | some (.json _) => fsInsert fs name (.raw s)
  | none => fsInsert fs name (.raw s)

/-- `append_done(&task)` (lib.rs:211-231): builds the record
`- <date>: <text>` plus one indented line per note and appends it to
`done.md`. `date` is `Local::now().format("%Y-%m-%d")`; `ioOk` models
`ensure_tasks_dir`, the open and the write. -/
def append_done (task : Task) (fs : FS) (date : String) (ioOk : Bool) : Except String FS :=
  if ioOk then
    .ok (fsAppend fs doneFile ("- " ++ date ++ ": " ++ task.text ++ "\n" ++ noteLines task.notes))
  else
    .error "io error"

/-- `complete_task(task, _state)` (lib.rs:245-249): appends to the
completion log; the in-memory `TaskState` is not touched (the command
takes `_state` and never uses it). Returns (command result, in-memory
tasks afterwards, filesystem afterwards). -/
def complete_task (task : Task) (tasks : TaskState) (fs : FS) (date : String) (ioOk : Bool) :
    Except String Unit × TaskState × FS :=
  match append_done task fs date ioOk with
  | .ok fs2 => (.ok (), tasks, fs2)
  | .error e => (.error e, tasks, fs)

/-- `archive_done()` (lib.rs:258-273): fails when `done.md` does not
exist; otherwise copies it to `done_<ts>.md` and truncates `done.md` to
empty. `ts` is `Local::now().format("%Y-%m-%d_%H%M%S")` (the current
local timestamp to second precision). -/
def archive_done (fs : FS) (ts : String) : Except String (String × FS) :=
  match fsLookup fs doneFile with
  | none => .error "No completed tasks to archive"
  | some c =>
    let archiveName := "done_" ++ ts ++ ".md"
    .ok (archiveName, fsInsert (fsInsert fs archiveName c) doneFile (.raw ""))

/-! ## Hotkey resolver

`tauri_plugin_global_shortcut`'s `Modifiers` bitset, `Code` key codes and
`Shortcut` are external library types; they are modelled structurally:
the bitset as four booleans, `Code` as an enumeration of exactly the key
codes `parse_hotkey` can produce. -/

/-- The modifier bitset (`Modifiers` from the global-shortcut plugin):
one flag per modifier the parser can set. -/
structure Modifiers where
  superKey : Bool
  control : Bool
  alt : Bool
  shift : Bool
deriving DecidableEq, Repr

/-- `Modifiers::empty()`. -/
def Modifiers.empty : Modifiers := ⟨false, false, false, false⟩

/-- `Modifiers::SUPER`. -/
def Modifiers.SUPER : Modifiers := ⟨true, false, false, false⟩

/-- `Modifiers::CONTROL`. -/
def Modifiers.CONTROL : Modifiers := ⟨false, true, false, false⟩

/-- `Modifiers::ALT`. -/
def Modifiers.ALT : Modifiers := ⟨false, false, true, false⟩

/-- `Modifiers::SHIFT`. -/
def Modifiers.SHIFT : Modifiers := ⟨false, false, false, true⟩

/-- Bitwise or (`|=`). -/
def Modifiers.or (a b : Modifiers) : Modifiers :=
  ⟨a.superKey || b.superKey, a.control || b.control, a.alt || b.alt, a.shift || b.shift⟩

/-- The key codes reachable from `parse_hotkey`'s key table. -/
inductive Code where
  | KeyA | KeyB | KeyC | KeyD | KeyE | KeyF | KeyG | KeyH | KeyI | KeyJ
  | KeyK | KeyL | KeyM | KeyN | KeyO | KeyP | KeyQ | KeyR | KeyS | KeyT
  | KeyU | KeyV | KeyW | KeyX | KeyY | KeyZ
  | Digit0 | Digit1 | Digit2 | Digit3 | Digit4
  | Digit5 | Digit6 | Digit7 | Digit8 | Digit9
  | Equal | Minus | BracketLeft | BracketRight | Backslash
  | Semicolon | Quote | Backquote | Comma | Period | Slash
  | Space | Enter | Tab | Escape | Backspace | Delete
  | ArrowUp | ArrowDown | ArrowLeft | ArrowRight
  | F1 | F2 | F3 | F4 | F5 | F6 | F7 | F8 | F9 | F10 | F11 | F12
deriving DecidableEq, Repr

/-- `Shortcut::new(mods, code)`: an optional modifier bitset plus a key. -/
structure Shortcut where
  mods : Option Modifiers
  code : Code
deriving DecidableEq, Repr

/-- Rust `str::split('+')` (collected): the possibly empty substrings
between `+` separators — one token more than the number of separators,
and `[""]` on the empty string. Structural recursion over the character
list, so concrete inputs evaluate. -/
def splitPlusAux : List Char → List Char → List String
  | [], acc => [String.mk acc.reverse]
  | c :: rest, acc =>
    if c = '+' then String.mk acc.reverse :: splitPlusAux rest []
    else splitPlusAux rest (c :: acc)

/-- `hotkey.split('+').collect::<Vec<&str>>()`. -/
def splitPlus (s : String) : List String := splitPlusAux s.data []

/-- Rust `str::to_lowercase` on the tokens the tables care about:
`Char.toLower` lowercases exactly the ASCII uppercase letters (the only
case distinction the alias and key tables involve). -/
def toLowercase (s : String) : String := String.mk (s.data.map Char.toLower)

/-- The key table of `parse_hotkey` (lib.rs:134-170): the match on
`key_str.to_lowercase()`, as a partial lookup (the `_` arm is the
caller's "Unknown key" error). -/
def keyCodeOfLower : String → Option Code
  | "a" => some .KeyA | "b" => some .KeyB | "c" => some .KeyC | "d" => some .KeyD
  | "e" => some .KeyE | "f" => some .KeyF | "g" => some .KeyG | "h" => some .KeyH
  | "i" => some .KeyI | "j" => some .KeyJ | "k" => some .KeyK | "l" => some .KeyL
  | "m" => some .KeyM | "n" => some .KeyN | "o" => some .KeyO | "p" => some .KeyP
  | "q" => some .KeyQ | "r" => some .KeyR | "s" => some .KeyS | "t" => some .KeyT
  | "u" => some .KeyU | "v" => some .KeyV | "w" => some .KeyW | "x" => some .KeyX
  | "y" => some .KeyY | "z" => some .KeyZ
  | "0" => some .Digit0 | "1" => some .Digit1 | "2" => some .Digit2 | "3" => some .Digit3
  | "4" => some .Digit4 | "5" => some .Digit5 | "6" => some .Digit6 | "7" => some .Digit7
  | "8" => some .Digit8 | "9" => some .Digit9
  | "=" => some .Equal | "equal" => some .Equal
  | "-" => some .Minus | "minus" => some .Minus
  | "[" => some .BracketLeft | "bracketleft" => some .BracketLeft
  | "]" => some .BracketRight | "bracketright" => some .BracketRight
  | "\\" => some .Backslash | "backslash" => some .Backslash
  | ";" => some .Semicolon | "semicolon" => some .Semicolon
  | "\x27" => some .Quote | "quote" => some .Quote
  | "\x60" => some .Backquote | "backquote" => some .Backquote
  | "," => some .Comma | "comma" => some .Comma
  | "." => some .Period | "period" => some .Period
  | "/" => some .Slash | "slash" => some .Slash
  | "space" => some .Space
  | "enter" => some .Enter | "return" => some .Enter
  | "tab" => some .Tab
  | "escape" => some .Escape | "esc" => some .Escape
  | "backspace" => some .Backspace
  | "delete" => some .Delete
  | "up" => some .ArrowUp
  | "down" => some .ArrowDown
  | "left" => some .ArrowLeft
  | "right" => some .ArrowRight
  | "f1" => some .F1 | "f2" => some .F2 | "f3" => some .F3 | "f4" => some .F4
  | "f5" => some .F5 | "f6" => some .F6 | "f7" => some .F7 | "f8" => some .F8
  | "f9" => some .F9 | "f10" => some .F10 | "f11" => some .F11 | "f12" => some .F12
  | _ => none

/-- The modifier loop of `parse_hotkey` (lib.rs:124-132): folds over the
tokens before the key, or-ing the alias table's bit into the accumulator,
returning the first unrecognized token's error. -/
def parseModifiers : List String → Modifiers → Except String Modifiers
  | [], m => .ok m
  | p :: rest, m =>
    match toLowercase p with
    | "cmd" | "command" | "super" | "meta" => parseModifiers rest (m.or .SUPER)
    | "ctrl" | "control" => parseModifiers rest (m.or .CONTROL)
    | "alt" | "option" => parseModifiers rest (m.or .ALT)
    | "shift" => parseModifiers rest (m.or .SHIFT)
    | _ => .error ("Unknown modifier: " ++ p)

/-- `parse_hotkey(hotkey)` (lib.rs:115-174). Since `split('+')` always
yields at least one token (`[""]` on the empty string), the
`parts.is_empty()` guard is unreachable, as is the `ok_or` on
`parts.last()`; both dead branches are kept. -/
def parse_hotkey (hotkey : String) : Except String Shortcut :=
  match splitPlus hotkey with
  | [] => .error "Empty hotkey"
  | p :: ps =>
    let key_str := List.getLast (p :: ps) (List.cons_ne_nil p ps)
    match parseModifiers (List.dropLast (p :: ps)) Modifiers.empty with
    | .error e => .error e
    | .ok modifiers =>
      match keyCodeOfLower (toLowercase key_str) with
      | none => .error ("Unknown key: " ++ key_str)
      | some code =>
        .ok ⟨if modifiers = Modifiers.empty then none else some modifiers, code⟩

/-! ### Spec-side model of the hotkey grammar (for the refinement claim)

Modelled from the spec's words (§4.4): split on `+`, last token is the
key, preceding tokens are modifiers, matched case-insensitively against
the alias/key tables, with errors that name the offending token. The key
table is the same fixed table (`keyCodeOfLower`) the spec enumerates. -/

/-- Spec §4.4 alias table: which modifier bit a (case-insensitive)
modifier token denotes, if any. -/
def specModifierOf (tok : String) : Option Modifiers :=
  match toLowercase tok with
  | "cmd" | "command" | "super" | "meta" => some Modifiers.SUPER
  | "ctrl" | "control" => some Modifiers.CONTROL
  | "alt" | "option" => some Modifiers.ALT
  | "shift" => some Modifiers.SHIFT
  | _ => none

/-- Outcome of the spec's parsing algorithm: a modifier set plus key, or a
failure naming the offending token. `emptySpecification` is the spec's
"empty specification" condition, reachable only if splitting produced no
tokens at all (which never happens). -/
inductive HotkeySpecResult where
  | ok (mods : Modifiers) (code : Code)
  | unknownModifier (token : String)
  | unknownKey (token : String)
  | emptySpecification
deriving Repr

/-- Spec §4.4 modifier pass: resolve each modifier token through the
alias table, or-ing the bits together; the first unrecognized token
fails. -/
def specMods : List String → Except String Modifiers
  | [] => .ok Modifiers.empty
  | t :: rest =>
    match specModifierOf t with
    | none => .error t
    | some m =>
      match specMods rest with
      | .error t2 => .error t2
      | .ok ms => .ok (m.or ms)

/-- Modelled from the spec: the §4.4 algorithm. Split on `+`; the last
token is the key, the preceding tokens are modifiers; unrecognized
modifier and key tokens fail naming the token. -/
def specParseHotkey (s : String) : HotkeySpecResult :=
  match splitPlus s with
  | [] => .emptySpecification
  | p :: ps =>
    let keyTok := List.getLast (p :: ps) (List.cons_ne_nil p ps)
    match specMods (List.dropLast (p :: ps)) with
    | .error t => .unknownModifier t
    | .ok ms =>
      match keyCodeOfLower (toLowercase keyTok) with
      | none => .unknownKey keyTok
      | some c => .ok ms c

/-- How a spec-level outcome is realized by `parse_hotkey`: a successful
combination carries `none` instead of an empty bitset; failures are the
corresponding error strings naming the token. -/
def MatchesSpec (r : HotkeySpecResult) (res : Except String Shortcut) : Prop :=
  match r with
  | .ok ms c => res = .ok ⟨if ms = Modifiers.empty then none else some ms, c⟩
  | .unknownModifier t => res = .error ("Unknown modifier: " ++ t)
  | .unknownKey t => res = .error ("Unknown key: " ++ t)
  | .emptySpecification => res = .error "Empty hotkey"

/-! ## Shortcut binding manager (`set_hotkey`) -/

/-- The state `set_hotkey` touches: the stored configuration and current
shortcut (`AppState.config`, `AppState.current_shortcut`), the set of
OS-registered shortcuts (the global-shortcut plugin's registry), and the
filesystem (for `save_config`). -/
structure HotkeySys where
  config : AppConfig
  current_shortcut : Option Shortcut
  registered : List Shortcut
  fs : FS

/-- `set_hotkey(hotkey, app, state)` (lib.rs:280-315): validates the
string first; on success unregisters the old shortcut (best-effort),
registers the new one (`regOk` models the plugin call succeeding),
updates the stored shortcut, updates the config and saves it (`saveOk`
models `save_config`'s I/O). -/
def set_hotkey (hotkey : String) (st : HotkeySys) (regOk saveOk : Bool) :
    Except String Unit × HotkeySys :=
  match parse_hotkey hotkey with
  | .error e => (.error e, st)
  | .ok new_shortcut =>
    let reg1 :=
      match st.current_shortcut with
      | some old => st.registered.filter (fun s => s ≠ old)
      | none => st.registered
    if regOk then
      let cfg : AppConfig := { hotkey := hotkey }
      let st2 : HotkeySys :=
        { config := cfg
          current_shortcut := some new_shortcut
          registered := new_shortcut :: reg1
          fs := st.fs }
      if saveOk then
        (.ok (), { st2 with fs := fsInsert st2.fs configFile (.json (encodeAppConfig cfg)) })
      else
        (.error "io error", st2)
    else
      (.error "registration failed", { st with registered := reg1 })

/-! ## Window placement (`toggle_window`, macOS branch, lib.rs:322-355)

Cocoa screen frames and the pointer position are `f64`; they are modelled
as rationals (exact arithmetic over the values that occur). The
computation below is the placement kernel of the macOS branch: find the
first screen whose frame contains the pointer, anchor the window's
top-right corner there, and flip the bottom-origin Cocoa y coordinate to
the toolkit's top-origin coordinate using the main screen's height. When
no screen contains the pointer the loop falls through and no position is
computed (the window is shown wherever it already was). -/

/-- An `NSScreen` frame: origin and size, bottom-left origin. -/
structure Frame where
  ox : ℚ
  oy : ℚ
  w : ℚ
  h : ℚ
deriving DecidableEq, Repr

/-- The containment test of the loop (lib.rs:335-338):
`x ∈ [ox, ox+w)` and `y ∈ [oy, oy+h)`. -/
def containsPoint (f : Frame) (px py : ℚ) : Bool :=
  decide (f.ox ≤ px) && decide (px < f.ox + f.w) &&
  decide (f.oy ≤ py) && decide (py < f.oy + f.h)

/-- `window_width = 400.0` (fixed width from tauri.conf.json). -/
def windowWidth : ℚ := 400

/-- The placement kernel: pointer position, screen list (in iteration
order) and the main screen's height to the window position set by
`window.set_position`, or `none` when no screen contains the pointer. -/
def computePlacement (px py : ℚ) (screens : List Frame) (mainHeight : ℚ) :
    Option (ℚ × ℚ) :=
  match screens.find? (fun f => containsPoint f px py) with
  | some f => some (f.ox + f.w - windowWidth, mainHeight - (f.oy + f.h))
  | none => none

/-! ## Filesystem lemmas -/

theorem fsLookup_fsInsert_self (fs : FS) (k : String) (v : FileData) :
    fsLookup (fsInsert fs k v) k = some v := by
  simp [fsInsert, fsLookup]

theorem fsLookup_fsErase_ne (fs : FS) (k k' : String) (h : k' ≠ k) :
    fsLookup (fsErase fs k) k' = fsLookup fs k' := by
  induction fs with
  | nil => rfl
  | cons hd tl ih =>
    obtain ⟨a, b⟩ := hd
    by_cases h1 : a = k
    · subst h1
      simp [fsErase, fsLookup, ih, Ne.symm h]
    · simp only [fsErase, fsLookup, if_neg h1]
      by_cases h2 : a = k'
      · simp [fsLookup, h2]
      · simp [fsLookup, h2, ih]

theorem fsLookup_fsErase_self (fs : FS) (k : String) :
    fsLookup (fsErase fs k) k = none := by
  induction fs with
  | nil => rfl
  | cons hd tl ih =>
    obtain ⟨a, b⟩ := hd
    by_cases h1 : a = k
    · simp [fsErase, h1, ih]
    · simp [fsErase, fsLookup, h1, ih]

theorem fsLookup_fsInsert_ne (fs : FS) (k k' : String) (v : FileData) (h : k' ≠ k) :
    fsLookup (fsInsert fs k v) k' = fsLookup fs k' := by
  simp [fsInsert, fsLookup, Ne.symm h, fsLookup_fsErase_ne fs k k' h]

/-! ## Serialization round-trip lemmas -/

theorem decodeNote_encodeNote (n : Note) : decodeNote (encodeNote n) = some n := rfl

theorem decodeNotes_map (ns : List Note) : decodeNotes (ns.map encodeNote) = some ns := by
  induction ns with
  | nil => rfl
  | cons n rest ih => simp [decodeNotes, decodeNote_encodeNote, ih]

theorem decodeTask_encodeTask (t : Task) : decodeTask (encodeTask t) = some t := by
  simp [encodeTask, decodeTask, taskFields, asNotes, decodeNotes_map]

theorem decodeTasks_map (ts : List Task) : decodeTasks (ts.map encodeTask) = some ts := by
  induction ts with
  | nil => rfl
  | cons t rest ih => simp [decodeTasks, decodeTask_encodeTask, ih]

theorem decodeTaskState_encodeTaskState (s : TaskState) :
    decodeTaskState (encodeTaskState s) = some s := by
  simp [encodeTaskState, decodeTaskState, taskStateFields, asTasks, decodeTasks_map]

/-! ## Claim theorems -/

/-- C1: serializing any `TaskState` with `save_tasks` and loading the
written file back with `load_tasks` yields a structurally equal state —
the same tasks in the same order in `current` and `shelf`, each with the
same text, notes and completion flags (structural equality of
`TaskState`) — and leaves the filesystem as the save left it. -/
theorem save_load_roundtrip (s : TaskState) (fs fs2 : FS)
    (h : save_tasks s fs true = .ok fs2) : load_tasks fs2 = (s, fs2) := by
  have hfs2 : fs2 = fsInsert fs stateFile (.json (encodeTaskState s)) := by
    simpa [save_tasks] using h.symm
  subst hfs2
  simp [load_tasks, fsLookup_fsInsert_self, decodeStateFile, serdeFromStr,
    decodeTaskState_encodeTaskState]

theorem save_load_roundtrip_witness :
    load_tasks (fsInsert [] stateFile
        (.json (encodeTaskState
          { current := [{ text := "Buy milk",
                          notes := [{ text := "2%", completed := true },
                                    { text := "oat", completed := false }] }],
            shelf := [{ text := "shelved", notes := [] }] }))) =
      ({ current := [{ text := "Buy milk",
                       notes := [{ text := "2%", completed := true },
                                 { text := "oat", completed := false }] }],
         shelf := [{ text := "shelved", notes := [] }] },
       fsInsert [] stateFile
        (.json (encodeTaskState
          { current := [{ text := "Buy milk",
                          notes := [{ text := "2%", completed := true },
                                    { text := "oat", completed := false }] }],
            shelf := [{ text := "shelved", notes := [] }] }))) :=
  save_load_roundtrip _ [] _ rfl

/-- C2: when the state file exists but its contents fail to parse as a
`TaskState` (non-JSON bytes or wrong shape), `load_tasks` returns the
empty default state without raising an error (its return type has no
error case), and renames the file to the `.corrupted` backup — the
backup's contents equal the original bytes, the state file is gone, and
any previous backup is overwritten (the conclusion holds for every prior
filesystem, including one that already has a backup). When the state
file is absent it returns the empty default and touches nothing. -/
theorem load_tasks_corrupt_recovery (fs : FS) :
    (∀ d, fsLookup fs stateFile = some d → decodeStateFile d = none →
      (load_tasks fs).1 = TaskState.default ∧
      fsLookup (load_tasks fs).2 corruptedFile = some d ∧
      fsLookup (load_tasks fs).2 stateFile = none) ∧
    (fsLookup fs stateFile = none → load_tasks fs = (TaskState.default, fs)) := by
  constructor
  · intro d hl hd
    have hload : load_tasks fs = (TaskState.default, fsRename fs stateFile corruptedFile) := by
      simp [load_tasks, hl, hd]
    have hren : fsRename fs stateFile corruptedFile =
        fsInsert (fsErase fs stateFile) corruptedFile d := by
      simp [fsRename, hl]
    refine ⟨by simp [hload], ?_, ?_⟩
    · rw [hload, hren]
      exact fsLookup_fsInsert_self _ _ _
    · rw [hload, hren,
        fsLookup_fsInsert_ne _ _ _ _ (by simp [stateFile, corruptedFile])]
      exact fsLookup_fsErase_self _ _
  · intro h
    simp [load_tasks, h]

theorem load_tasks_corrupt_recovery_witness :
    ((load_tasks [(stateFile, .raw "garbage bytes"),
                  (corruptedFile, .raw "previous backup")]).1 = TaskState.default ∧
      fsLookup (load_tasks [(stateFile, .raw "garbage bytes"),
                  (corruptedFile, .raw "previous backup")]).2 corruptedFile =
        some (.raw "garbage bytes") ∧
      fsLookup (load_tasks [(stateFile, .raw "garbage bytes"),
                  (corruptedFile, .raw "previous backup")]).2 stateFile = none) ∧
    load_tasks [] = (TaskState.default, []) :=
  ⟨(load_tasks_corrupt_recovery
      [(stateFile, .raw "garbage bytes"), (corruptedFile, .raw "previous backup")]).1
        (.raw "garbage bytes") rfl rfl,
   (load_tasks_corrupt_recovery []).2 rfl⟩

/-- C4: `parse_hotkey` on the empty string does not produce the intended
"Empty hotkey" (empty-specification) error: `split('+')` on `""` yields
`[""]`, so the `parts.is_empty()` guard never fires and the empty key
token falls through to the key table, producing "Unknown key: " instead. -/
theorem parse_hotkey_empty_string : parse_hotkey "" = .error "Unknown key: " := rfl

/-- C7: `save_state` replaces the in-memory aggregate before attempting
the disk write; when the write fails the error is surfaced to the caller,
the filesystem is unchanged, and the in-memory replacement is not rolled
back — the in-memory state equals the new state for every write outcome. -/
theorem save_state_no_rollback (new_state tasks : TaskState) (fs : FS) :
    (∀ ioOk, (save_state new_state tasks fs ioOk).2.1 = new_state) ∧
    (save_state new_state tasks fs false).1 = .error "io error" ∧
    (save_state new_state tasks fs false).2.2 = fs := by
  refine ⟨fun ioOk => ?_, rfl, rfl⟩
  cases ioOk <;> rfl

/-! ## Hotkey lemmas -/

theorem Modifiers.or_empty (m : Modifiers) : m.or Modifiers.empty = m := by
  cases m
  simp [Modifiers.or, Modifiers.empty]

theorem Modifiers.empty_or (m : Modifiers) : Modifiers.empty.or m = m := by
  cases m
  simp [Modifiers.or, Modifiers.empty]

theorem Modifiers.or_assoc (a b c : Modifiers) : (a.or b).or c = a.or (b.or c) := by
  cases a
  cases b
  cases c
  simp [Modifiers.or, Bool.or_assoc]

/-- One step of the modifier loop agrees with the spec's alias table. -/
theorem parseModifiers_cons (p : String) (rest : List String) (m : Modifiers) :
    parseModifiers (p :: rest) m =
      match specModifierOf p with
      | none => .error ("Unknown modifier: " ++ p)
      | some mm => parseModifiers rest (m.or mm) := by
  simp only [parseModifiers, specModifierOf]
  generalize toLowercase p = x
  split <;> simp_all

/-- The source's accumulator loop over the modifier tokens computes the
spec's modifier set (or fails on the same first unrecognized token). -/
theorem parseModifiers_spec (l : List String) (acc : Modifiers) :
    parseModifiers l acc =
      match specMods l with
      | .error t => .error ("Unknown modifier: " ++ t)
      | .ok ms => .ok (acc.or ms) := by
  induction l generalizing acc with
  | nil => simp [parseModifiers, specMods, Modifiers.or_empty]
  | cons p rest ih =>
    rw [parseModifiers_cons]
    simp only [specMods]
    cases hmo : specModifierOf p with
    | none => simp
    | some mm =>
      simp only [ih]
      cases hsm : specMods rest <;> simp [Modifiers.or_assoc]

/-- C3: `parse_hotkey` follows the spec's algorithm on every input
string: split on `+`, last token is the key, preceding tokens are
modifiers resolved case-insensitively through the alias table (first
unrecognized modifier token fails with an "unknown modifier" error naming
it), the key token is resolved case-insensitively through the fixed key
table (an unmatched key token fails with an "unknown key" error naming
it), and zero modifiers yields a combination with no modifier bitset
(`none`); in particular `parse("Ctrl+Alt+K")` is `{control, alt}` with
key K and `parse("=")` is no modifiers with key `=`. -/
theorem parse_hotkey_follows_spec :
    (∀ s, MatchesSpec (specParseHotkey s) (parse_hotkey s)) ∧
    parse_hotkey "Ctrl+Alt+K" = .ok ⟨some ⟨false, true, true, false⟩, .KeyK⟩ ∧
    parse_hotkey "=" = .ok ⟨none, .Equal⟩ := by
  refine ⟨fun s => ?_, rfl, rfl⟩
  cases h : splitPlus s with
  | nil => simp [specParseHotkey, parse_hotkey, h, MatchesSpec]
  | cons p ps =>
    simp only [specParseHotkey, parse_hotkey, h]
    rw [parseModifiers_spec]
    cases hsm : specMods (List.dropLast (p :: ps)) with
    | error t => simp [MatchesSpec]
    | ok ms =>
      simp only [Modifiers.empty_or]
      cases hk : keyCodeOfLower (toLowercase (List.getLast (p :: ps) (List.cons_ne_nil p ps))) with
      | none => simp [MatchesSpec]
      | some c => simp [MatchesSpec]

/-- C8: when the hotkey string fails to parse, `set_hotkey` surfaces the
validation error and the whole system state — stored config, persisted
config file, current shortcut, and the set of OS-registered bindings —
is unchanged; the old binding remains authoritative. -/
theorem set_hotkey_parse_error (hotkey : String) (st : HotkeySys) (regOk saveOk : Bool)
    (e : String) (hp : parse_hotkey hotkey = .error e) :
    set_hotkey hotkey st regOk saveOk = (.error e, st) := by
  simp [set_hotkey, hp]

theorem set_hotkey_parse_error_witness :
    set_hotkey "Foo+A" ⟨⟨"Cmd+Ctrl+Alt+Shift+="⟩, none, [], []⟩ true true =
      (.error "Unknown modifier: Foo", ⟨⟨"Cmd+Ctrl+Alt+Shift+="⟩, none, [], []⟩) :=
  set_hotkey_parse_error "Foo+A" ⟨⟨"Cmd+Ctrl+Alt+Shift+="⟩, none, [], []⟩ true true
    "Unknown modifier: Foo" rfl

/-! ## Archive lemmas and theorems -/

theorem archiveName_ne_doneFile (ts : String) :
    ("done_" ++ ts ++ ".md" : String) ≠ doneFile := by
  intro h
  have hlen := congrArg String.length h
  have h5 : ("done_" : String).length = 5 := rfl
  have h3 : (".md" : String).length = 3 := rfl
  have h7 : (doneFile : String).length = 7 := rfl
  rw [String.length_append, String.length_append, h5, h3, h7] at hlen
  omega

/-- C6: `archive_done` fails with the "nothing to archive" error exactly
when the log file is absent; otherwise it returns the archive name
`done_<ts>.md` built from the current local timestamp (second precision),
and afterwards the archive file holds the log's former contents while the
live log is truncated to empty. -/
theorem archive_done_spec (fs : FS) (ts : String) :
    (fsLookup fs doneFile = none →
      archive_done fs ts = .error "No completed tasks to archive") ∧
    (∀ c, fsLookup fs doneFile = some c →
      archive_done fs ts =
        .ok ("done_" ++ ts ++ ".md",
          fsInsert (fsInsert fs ("done_" ++ ts ++ ".md") c) doneFile (.raw "")) ∧
      fsLookup (fsInsert (fsInsert fs ("done_" ++ ts ++ ".md") c) doneFile (.raw ""))
          ("done_" ++ ts ++ ".md") = some c ∧
      fsLookup (fsInsert (fsInsert fs ("done_" ++ ts ++ ".md") c) doneFile (.raw ""))
          doneFile = some (.raw "")) := by
  constructor
  · intro h
    simp [archive_done, h]
  · intro c h
    refine ⟨by simp [archive_done, h], ?_, fsLookup_fsInsert_self _ _ _⟩
    rw [fsLookup_fsInsert_ne _ _ _ _ (archiveName_ne_doneFile ts)]
    exact fsLookup_fsInsert_self _ _ _

theorem archive_done_spec_witness :
    archive_done [] "t" = .error "No completed tasks to archive" ∧
    (archive_done [(doneFile, FileData.raw "- 2025-10-12: x\n")] "t" =
        .ok ("done_" ++ "t" ++ ".md",
          fsInsert (fsInsert [(doneFile, FileData.raw "- 2025-10-12: x\n")]
            ("done_" ++ "t" ++ ".md") (FileData.raw "- 2025-10-12: x\n"))
            doneFile (.raw "")) ∧
      fsLookup (fsInsert (fsInsert [(doneFile, FileData.raw "- 2025-10-12: x\n")]
            ("done_" ++ "t" ++ ".md") (FileData.raw "- 2025-10-12: x\n"))
            doneFile (.raw "")) ("done_" ++ "t" ++ ".md") =
        some (FileData.raw "- 2025-10-12: x\n") ∧
      fsLookup (fsInsert (fsInsert [(doneFile, FileData.raw "- 2025-10-12: x\n")]
            ("done_" ++ "t" ++ ".md") (FileData.raw "- 2025-10-12: x\n"))
            doneFile (.raw "")) doneFile = some (FileData.raw "")) :=
  ⟨(archive_done_spec [] "t").1 rfl,
   (archive_done_spec [(doneFile, FileData.raw "- 2025-10-12: x\n")] "t").2
     (FileData.raw "- 2025-10-12: x\n") rfl⟩

/-- C5 counterexample: starting from a filesystem where the completion
log exists with content, the first `archive_done` succeeds, but the
second call — with no completions in between — also succeeds (the
truncated-but-existing log passes the existence check and an empty
archive is produced); it does not fail with "nothing to archive" as the
claim states. -/
theorem archive_done_twice_succeeds :
    archive_done [(doneFile, FileData.raw "- 2025-10-12: x\n")] "t1" =
      .ok ("done_t1.md",
        [(doneFile, FileData.raw ""),
         ("done_t1.md", FileData.raw "- 2025-10-12: x\n")]) ∧
    archive_done [(doneFile, FileData.raw ""),
        ("done_t1.md", FileData.raw "- 2025-10-12: x\n")] "t2" =
      .ok ("done_t2.md",
        [(doneFile, FileData.raw ""), ("done_t2.md", FileData.raw ""),
         ("done_t1.md", FileData.raw "- 2025-10-12: x\n")]) ∧
    archive_done [(doneFile, FileData.raw ""),
        ("done_t1.md", FileData.raw "- 2025-10-12: x\n")] "t2" ≠
      .error "No completed tasks to archive" := by
  refine ⟨rfl, rfl, fun h => ?_⟩
  have h2 : archive_done [(doneFile, FileData.raw ""),
      ("done_t1.md", FileData.raw "- 2025-10-12: x\n")] "t2" =
      .ok ("done_t2.md",
        [(doneFile, FileData.raw ""), ("done_t2.md", FileData.raw ""),
         ("done_t1.md", FileData.raw "- 2025-10-12: x\n")]) := rfl
  rw [h] at h2
  exact Except.noConfusion h2

/-- C5 amended: with the log file present, the first `archive_done`
succeeds and truncates the log; a second call with no completions in
between does not fail — because `archive_done` only checks that the log
file exists, the truncated empty log passes the check, so the second call
succeeds as well, producing an archive whose contents are empty. -/
theorem archive_done_twice_amended (fs : FS) (c : FileData) (ts1 ts2 : String)
    (h : fsLookup fs doneFile = some c) :
    archive_done fs ts1 =
      .ok ("done_" ++ ts1 ++ ".md",
        fsInsert (fsInsert fs ("done_" ++ ts1 ++ ".md") c) doneFile (.raw "")) ∧
    ∃ fs2,
      archive_done (fsInsert (fsInsert fs ("done_" ++ ts1 ++ ".md") c) doneFile (.raw ""))
          ts2 = .ok ("done_" ++ ts2 ++ ".md", fs2) ∧
      fsLookup fs2 ("done_" ++ ts2 ++ ".md") = some (FileData.raw "") := by
  refine ⟨by simp [archive_done, h], ?_⟩
  have h1 : fsLookup
      (fsInsert (fsInsert fs ("done_" ++ ts1 ++ ".md") c) doneFile (.raw "")) doneFile =
      some (FileData.raw "") := fsLookup_fsInsert_self _ _ _
  have h2 : archive_done
      (fsInsert (fsInsert fs ("done_" ++ ts1 ++ ".md") c) doneFile (.raw "")) ts2 =
      .ok ("done_" ++ ts2 ++ ".md",
        fsInsert (fsInsert
          (fsInsert (fsInsert fs ("done_" ++ ts1 ++ ".md") c) doneFile (.raw ""))
          ("done_" ++ ts2 ++ ".md") (.raw "")) doneFile (.raw "")) := by
    simp [archive_done, h1]
  refine ⟨_, h2, ?_⟩
  rw [fsLookup_fsInsert_ne _ _ _ _ (archiveName_ne_doneFile ts2)]
  exact fsLookup_fsInsert_self _ _ _

theorem archive_done_twice_amended_witness :
    archive_done [(doneFile, FileData.raw "x")] "t1" =
      .ok ("done_" ++ "t1" ++ ".md",
        fsInsert (fsInsert [(doneFile, FileData.raw "x")] ("done_" ++ "t1" ++ ".md")
          (FileData.raw "x")) doneFile (.raw "")) ∧
    ∃ fs2,
      archive_done (fsInsert (fsInsert [(doneFile, FileData.raw "x")]
          ("done_" ++ "t1" ++ ".md") (FileData.raw "x")) doneFile (.raw "")) "t2" =
        .ok ("done_" ++ "t2" ++ ".md", fs2) ∧
      fsLookup fs2 ("done_" ++ "t2" ++ ".md") = some (FileData.raw "") :=
  archive_done_twice_amended [(doneFile, FileData.raw "x")] (FileData.raw "x") "t1" "t2" rfl

/-! ## Window placement theorems -/

/-- C9 counterexample: when no display region contains the pointer, the
placement computation produces no position at all — it does not fall back
to anchoring against the primary display (here the only display
`(0,0,100,100)` with pointer `(200,50)` outside it; the claimed primary
anchor would be `(0+100-400, 100-(0+100))`). -/
theorem placement_no_fallback :
    computePlacement 200 50 [⟨0, 0, 100, 100⟩] 100 = none ∧
    computePlacement 200 50 [⟨0, 0, 100, 100⟩] 100 ≠
      some ((0 : ℚ) + 100 - windowWidth, (100 : ℚ) - (0 + 100)) := by
  have h : computePlacement 200 50 [⟨0, 0, 100, 100⟩] 100 = none := by
    simp [computePlacement, List.find?, containsPoint]
    norm_num
  exact ⟨h, by rw [h]; exact fun hc => Option.noConfusion hc⟩

/-- C9 amended: the placement computation selects the first display
region containing the pointer and anchors the window's top-right corner
to that region's top-right corner — horizontal = region.right − window
width, vertical = region.top converted from bottom-origin to top-origin
using the primary display's height; with two side-by-side displays and
the pointer on the non-primary right display the right display's
rectangle is used, not the primary's; but when no region contains the
pointer no position is computed (there is no primary-display fallback:
the window is shown wherever it already was). -/
theorem placement_spec :
    (∀ (px py : ℚ) (pre post : List Frame) (f : Frame) (mh : ℚ),
      (∀ g ∈ pre, containsPoint g px py = false) → containsPoint f px py = true →
      computePlacement px py (pre ++ f :: post) mh =
        some (f.ox + f.w - windowWidth, mh - (f.oy + f.h))) ∧
    (∀ (px py : ℚ) (screens : List Frame) (mh : ℚ),
      (∀ g ∈ screens, containsPoint g px py = false) →
      computePlacement px py screens mh = none) ∧
    computePlacement 1500 100 [⟨0, 0, 1000, 800⟩, ⟨1000, 0, 1000, 800⟩] 800 =
      some (1600, 0) ∧
    computePlacement 1500 100 [⟨0, 0, 1000, 800⟩, ⟨1000, 0, 1000, 800⟩] 800 ≠
      some (600, 0) := by
  have h3 : computePlacement 1500 100 [⟨0, 0, 1000, 800⟩, ⟨1000, 0, 1000, 800⟩] 800 =
      some (1600, 0) := by
    simp [computePlacement, List.find?, containsPoint, windowWidth]
    norm_num
  refine ⟨?_, ?_, h3, ?_⟩
  · intro px py pre post f mh hpre hf
    induction pre with
    | nil =>
      simp [computePlacement, List.find?_cons, hf]
    | cons g pre' ih =>
      have hg : containsPoint g px py = false := hpre g (by simp)
      have hrest : ∀ g2 ∈ pre', containsPoint g2 px py = false :=
        fun g2 hg2 => hpre g2 (by simp [hg2])
      have ih2 := ih hrest
      simp only [computePlacement, List.cons_append, List.find?_cons, hg] at ih2 ⊢
      exact ih2
  · intro px py screens mh hscreens
    simp only [computePlacement]
    rw [List.find?_eq_none.mpr (fun g hg => by simp [hscreens g hg])]
  · rw [h3]
    intro hc
    norm_num at hc

theorem placement_spec_witness :
    computePlacement 1500 100 ([⟨0, 0, 1000, 800⟩] ++ ⟨1000, 0, 1000, 800⟩ :: []) 800 =
      some ((1000 : ℚ) + 1000 - windowWidth, (800 : ℚ) - (0 + 800)) ∧
    computePlacement 200 50 [⟨0, 0, 100, 100⟩] 100 = none :=
  ⟨placement_spec.1 1500 100 [⟨0, 0, 1000, 800⟩] [] ⟨1000, 0, 1000, 800⟩ 800
      (by intro g hg; simp only [List.mem_singleton] at hg; subst hg;
          simp [containsPoint]; norm_num)
      (by simp [containsPoint]; norm_num),
   placement_spec.2.1 200 50 [⟨0, 0, 100, 100⟩] 100
      (by intro g hg; simp only [List.mem_singleton] at hg; subst hg;
          simp [containsPoint]; norm_num)⟩

/-- C10: `complete_task` only appends to the completion log: for every
task, prior in-memory state, date and append outcome, the in-memory
`TaskState` afterwards equals the one before, so a `get_tasks` snapshot
taken after `complete_task` equals one taken before, whether or not the
append succeeds. -/
theorem complete_task_frame (task : Task) (tasks : TaskState) (fs : FS) (date : String) :
    ∀ ioOk, (complete_task task tasks fs date ioOk).2.1 = tasks ∧
      get_tasks (complete_task task tasks fs date ioOk).2.1 = get_tasks tasks := by
  intro ioOk
  cases ioOk <;> exact ⟨rfl, rfl⟩

end TaskLog
